import Mathlib

/-!
Verification development for the PyChess 2 core (board representation and
piece movement), shallowly embedded from src/lib/pieces.py and
src/lib/board.py.  Coordinates are pairs of integers; boards carry the
piece map as a function from coordinates to optional pieces; fallible
operations return Except values carrying the board state at the moment the
source would raise, since the source mutates the board in place.
-/

namespace PyChess

/-- Color enumeration from src/lib/pieces.py (class Color). -/
inductive Color where
  | neutral
  | white
  | black
deriving DecidableEq, Repr

/-- Color.next from src/lib/pieces.py lines 56-60: defined for WHITE and
BLACK only; NEUTRAL raises ValueError, modelled as none. -/
def colorNext : Color → Option Color
  | Color.white => some Color.black
  | Color.black => some Color.white
  | Color.neutral => none

/-- The eleven concrete piece classes of src/lib/pieces.py (the base Piece
class acts as the neutral no-op piece). -/
inductive PieceKind where
  | piece
  | amazon
  | bishop
  | empress
  | king
  | knight
  | nightrider
  | pawn
  | princess
  | queen
  | rook
deriving DecidableEq, Repr

/-- Coordinate from src/lib/board.py: a (file, rank) pair.  The Python
class only ever holds values in [0, 26) on both axes; that invariant is
enforced by construction and modelled by coordOK below. -/
@[ext]
structure Coord where
  file : Int
  rank : Int
deriving DecidableEq, Repr

/-- Componentwise offset of a coordinate by a step vector, before the
range check of the Coordinate constructor. -/
def rawAdd (c : Coord) (s : Int × Int) : Coord :=
  ⟨c.file + s.1, c.rank + s.2⟩

/-- The range invariant of the Coordinate constructor
(src/lib/board.py lines 168-175): both axes in [0, 26). -/
def coordOK (c : Coord) : Prop :=
  0 ≤ c.file ∧ c.file < 26 ∧ 0 ≤ c.rank ∧ c.rank < 26

instance (c : Coord) : Decidable (coordOK c) := by
  unfold coordOK
  infer_instance

/-- Coordinate.__add__ from src/lib/board.py lines 178-189: builds the
offset coordinate, raising IndexError (modelled as none) when the result
leaves [0, 26) on either axis. -/
def coordAdd (c : Coord) (s : Int × Int) : Option Coord :=
  if coordOK (rawAdd c s) then some (rawAdd c s) else none

/-- BoardArchiveMode from src/lib/board.py (NONE, PARTIAL, FULL). -/
inductive ArchiveMode where
  | mnone
  | mpart
  | mfull
deriving DecidableEq, Repr

/-- A piece value: concrete class, color and position.  The board
back-reference of the Python object is not stored; the board is threaded
explicitly through every operation. -/
structure PieceV where
  kind : PieceKind
  color : Color
  pos : Coord
deriving DecidableEq, Repr

/-- BoardArchive from src/lib/board.py lines 512-534: a snapshot of
castling rights, dimensions, pawn ranks, piece map and turn. -/
structure ArchiveV where
  castling : Nat
  files : Nat
  pawnRankW : Int
  pawnRankB : Int
  pieceMap : Coord → Option PieceV
  ranks : Nat
  turn : Color

/-- Board state from src/lib/board.py: dimensions, piece map, turn and
first player, castling rights (a passive four-flag bitmask), en-passant
target, the two clocks, per-color pawn double-move ranks, archive mode
and the archive list. -/
structure Board where
  files : Nat
  ranks : Nat
  pieceMap : Coord → Option PieceV
  turn : Color
  firstPlayer : Color
  castling : Nat
  enPassant : Option Coord
  halfmove : Int
  fullmove : Int
  pawnRankW : Int
  pawnRankB : Int
  archiveMode : ArchiveMode
  archives : List ArchiveV

/-- Containment test (test_pos in piece.board): whether a square is
occupied in the board piece map. -/
def occupied (b : Board) (c : Coord) : Bool :=
  (b.pieceMap c).isSome

/-- A square lies within the board: file in [0, files) and rank in
[0, ranks). -/
def inBoard (b : Board) (c : Coord) : Prop :=
  0 ≤ c.file ∧ c.file < (b.files : Int) ∧ 0 ≤ c.rank ∧ c.rank < (b.ranks : Int)

instance (b : Board) (c : Coord) : Decidable (inBoard b c) := by
  unfold inBoard
  infer_instance

/-- BoardArchive.__init__ from src/lib/board.py lines 519-534: copy the
scalar fields and the piece map from the source board. -/
def mkArchive (b : Board) : ArchiveV :=
  ⟨b.castling, b.files, b.pawnRankW, b.pawnRankB, b.pieceMap, b.ranks, b.turn⟩

/-- Board.increment_halfmove from src/lib/board.py lines 407-411.  The
source guard is (self.archives is not BoardArchiveMode.NONE), which
compares the archive list object with an enum member and is therefore
true for every board, so the append is unconditional. -/
def incrementHalfmove (b : Board) : Board :=
  let b1 := { b with halfmove := b.halfmove + 1 }
  { b1 with archives := b1.archives ++ [mkArchive b1] }

/-- Board.reset_halfmove from src/lib/board.py lines 499-504: zero the
clock; under PARTIAL mode clear the archives and re-seed with a fresh
snapshot. -/
def resetHalfmove (b : Board) : Board :=
  let b1 := { b with halfmove := 0 }
  if b1.archiveMode = ArchiveMode.mpart then
    { b1 with archives := [mkArchive b1] }
  else b1

/-- Board.__delitem__: remove the piece at a key.  Callers guard the
KeyError case themselves, as the source does. -/
def mapDel (b : Board) (c : Coord) : Board :=
  { b with pieceMap := fun x => if x = c then none else b.pieceMap x }

/-- Board.__setitem__ from src/lib/board.py lines 506-509: raises
IndexError (modelled as none) when key.file > files or key.rank > ranks
(a strict comparison, so the squares at file = files or rank = ranks
pass the check). -/
def mapSet (b : Board) (c : Coord) (p : PieceV) : Option Board :=
  if (b.files : Int) < c.file ∨ (b.ranks : Int) < c.rank then none
  else some { b with pieceMap := fun x => if x = c then some p else b.pieceMap x }

/-- leap from src/lib/pieces.py lines 164-177: the single offset square
if the Coordinate constructor accepts it and it passes the
file < files and rank < ranks checks, else nothing. -/
def leap (b : Board) (p : PieceV) (s : Int × Int) : List Coord :=
  match coordAdd p.pos s with
  | none => []
  | some c2 =>
    if (b.files : Int) ≤ c2.file ∨ (b.ranks : Int) ≤ c2.rank then [] else [c2]

/-- The loop body of ride from src/lib/pieces.py lines 180-198, with a
fuel parameter.  Each iteration offsets by the step (IndexError from the
Coordinate constructor ends the walk), applies the file and rank bound
checks (ending the walk), records the square, and stops after recording
an occupied square.  A nonzero step leaves the [0, 26) range of an axis
within 26 iterations, so fuel 26 reproduces the unbounded source loop
for every piece whose position satisfies coordOK. -/
def rideAux (b : Board) (s : Int × Int) : Nat → Coord → List Coord
  | 0, _ => []
  | n + 1, c =>
    match coordAdd c s with
    | none => []
    | some c2 =>
      if (b.files : Int) ≤ c2.file ∨ (b.ranks : Int) ≤ c2.rank then []
      else if occupied b c2 then [c2]
      else c2 :: rideAux b s n c2

/-- ride from src/lib/pieces.py lines 180-198. -/
def ride (b : Board) (p : PieceV) (s : Int × Int) : List Coord :=
  rideAux b s 26 p.pos

/-- sym_leap from src/lib/pieces.py lines 201-217: union of the eight
sign and axis-swap variants of the step. -/
def symLeap (b : Board) (p : PieceV) (s : Int × Int) : List Coord :=
  leap b p (s.1, s.2) ++ leap b p (-s.1, s.2) ++ leap b p (s.1, -s.2) ++
    leap b p (-s.1, -s.2) ++ leap b p (s.2, s.1) ++ leap b p (-s.2, s.1) ++
    leap b p (s.2, -s.1) ++ leap b p (-s.2, -s.1)

/-- sym_ride from src/lib/pieces.py lines 220-236. -/
def symRide (b : Board) (p : PieceV) (s : Int × Int) : List Coord :=
  ride b p (s.1, s.2) ++ ride b p (-s.1, s.2) ++ ride b p (s.1, -s.2) ++
    ride b p (-s.1, -s.2) ++ ride b p (s.2, s.1) ++ ride b p (-s.2, s.1) ++
    ride b p (s.2, -s.1) ++ ride b p (-s.2, -s.1)

/-- The base_step match of Pawn.moves (src/lib/pieces.py lines 325-329):
(0, 1) for WHITE, (0, -1) for BLACK; a NEUTRAL pawn leaves the variable
unbound in the source and is unconstructible (the Pawn constructor
rejects non-player colors), modelled as none. -/
def pawnBaseStep : Color → Option (Int × Int)
  | Color.white => some (0, 1)
  | Color.black => some (0, -1)
  | Color.neutral => none

/-- The board.pawn_ranks[color] lookup of Pawn.moves line 339.  Only
reached for player colors; the NEUTRAL value is arbitrary. -/
def pawnDouble (b : Board) : Color → Int
  | Color.white => b.pawnRankW
  | Color.black => b.pawnRankB
  | Color.neutral => 0

/-- Pawn.moves from src/lib/pieces.py lines 322-365.  If the single
forward square is off the board the whole call returns the empty set
(lines 330-335); otherwise the forward square when empty, the double
advance from the configured pawn rank when both squares are empty, and
each forward diagonal that equals the en-passant target or is occupied.
The left diagonal has no file or rank check beyond the Coordinate
constructor; the right diagonal checks only the file bound. -/
def pawnMoves (b : Board) (p : PieceV) : List Coord :=
  match pawnBaseStep p.color with
  | none => []
  | some bs =>
    match coordAdd p.pos bs with
    | none => []
    | some t1 =>
      if (b.ranks : Int) ≤ t1.rank then []
      else
        (if occupied b t1 then []
         else
           [t1] ++
             (if p.pos.rank = pawnDouble b p.color then
                match coordAdd t1 bs with
                | none => []
                | some t2 =>
                  if (b.ranks : Int) ≤ t2.rank then []
                  else if occupied b t2 then [] else [t2]
              else [])) ++
        (match coordAdd t1 (-1, 0) with
         | none => []
         | some t3 =>
           if b.enPassant = some t3 ∨ occupied b t3 then [t3] else []) ++
        (match coordAdd t1 (1, 0) with
         | none => []
         | some t4 =>
           if (b.files : Int) ≤ t4.file then []
           else if b.enPassant = some t4 ∨ occupied b t4 then [t4] else [])

/-- moves dispatch over the concrete piece classes
(src/lib/pieces.py lines 156-159, 239-272, 322-382). -/
def movesOf (b : Board) (p : PieceV) : List Coord :=
  match p.kind with
  | PieceKind.piece => []
  | PieceKind.amazon => symRide b p (1, 0) ++ symRide b p (1, 1) ++ symLeap b p (2, 1)
  | PieceKind.bishop => symRide b p (1, 1)
  | PieceKind.empress => symRide b p (1, 0) ++ symLeap b p (2, 1)
  | PieceKind.king => symLeap b p (1, 0) ++ symLeap b p (1, 1)
  | PieceKind.knight => symLeap b p (2, 1)
  | PieceKind.nightrider => symRide b p (2, 1)
  | PieceKind.pawn => pawnMoves b p
  | PieceKind.princess => symRide b p (1, 1) ++ symLeap b p (2, 1)
  | PieceKind.queen => symRide b p (1, 0) ++ symRide b p (1, 1)
  | PieceKind.rook => symRide b p (1, 0)

/-- Piece.attacked_by from src/lib/pieces.py lines 109-119: for every
rank and file of the grid, in iteration order, index the board at that
square (a KeyError on an empty square propagates out of the method,
modelled as an error) and collect the piece when its color differs from
the querying piece and its moves contain the querying piece square. -/
def attackedBy (b : Board) (self : PieceV) : Except String (List PieceV) :=
  (List.range b.ranks).foldl
    (fun acc rank =>
      (List.range b.files).foldl
        (fun acc2 file =>
          Except.bind acc2 (fun l =>
            match b.pieceMap ⟨(file : Int), (rank : Int)⟩ with
            | none => Except.error "KeyError"
            | some p =>
              if self.color ≠ p.color ∧ self.pos ∈ movesOf b p then
                Except.ok (l ++ [p])
              else Except.ok l))
        acc)
    (Except.ok [])

/-- Result of a move: on success the updated board and the captured
piece (if any); on failure the exception kind together with the board
state at the moment the source raises, since the Python board is mutated
in place and keeps all changes made before the raise. -/
abbrev MoveRes := Except (String × Board) (Board × Option PieceV)

/-- The shared tail of Piece.move and Pawn.move
(src/lib/pieces.py lines 144-149 and 314-319): delete the mover from its
old square (an uncaught KeyError if it is absent), then either place the
mover, with its position updated, at the destination, or place a freshly
constructed piece of the promotion class there (the Pawn constructor
rejects NEUTRAL, src/lib/pieces.py lines 282-283); the placement goes
through the Board.__setitem__ bound check. -/
def finishMove (b : Board) (self : PieceV) (dest : Coord)
    (promo : Option PieceKind) (captured : Option PieceV) : MoveRes :=
  if (b.pieceMap self.pos).isSome then
    let b1 := mapDel b self.pos
    match promo with
    | none =>
      match mapSet b1 dest { self with pos := dest } with
      | none => Except.error ("IndexError", b1)
      | some b2 => Except.ok (b2, captured)
    | some k =>
      if k = PieceKind.pawn ∧ self.color = Color.neutral then
        Except.error ("ValueError", b1)
      else
        match mapSet b1 dest ⟨k, self.color, dest⟩ with
        | none => Except.error ("IndexError", b1)
        | some b2 => Except.ok (b2, captured)
  else Except.error ("KeyError", b)

/-- Piece.move from src/lib/pieces.py lines 131-154: the destination
check uses strict comparisons (dest.file > files or dest.rank > ranks),
then en passant is cleared, the turn flips (reading the new turn for the
fullmove update), the capture at dest is looked up, the mover is
re-seated, and the halfmove clock is incremented or reset according to
whether a capture occurred. -/
def pieceMove (b : Board) (self : PieceV) (dest : Coord)
    (promo : Option PieceKind) : MoveRes :=
  if (b.files : Int) < dest.file ∨ (b.ranks : Int) < dest.rank then
    Except.error ("IndexError", b)
  else
    let b1 := { b with enPassant := none }
    match colorNext b1.turn with
    | none => Except.error ("ValueError", b1)
    | some t =>
      let b2 := { b1 with turn := t, fullmove := b1.fullmove + (if t = b1.firstPlayer then 1 else 0) }
      let captured := b2.pieceMap dest
      match finishMove b2 self dest promo captured with
      | Except.error e => Except.error e
      | Except.ok (b3, cap) =>
        match cap with
        | none => Except.ok (incrementHalfmove b3, cap)
        | some _ => Except.ok (resetHalfmove b3, cap)

/-- The reverse_step match of Pawn.move (src/lib/pieces.py lines
292-297): the source assigns (0, 1) for WHITE and (0, -1) for BLACK,
which are the forward step directions of the respective colors (they
coincide with base_step in Pawn.moves); a NEUTRAL pawn is
unconstructible, modelled as none. -/
def pawnReverseStep : Color → Option (Int × Int)
  | Color.white => some (0, 1)
  | Color.black => some (0, -1)
  | Color.neutral => none

/-- Pawn.move from src/lib/pieces.py lines 286-320: the halfmove clock
is reset unconditionally, the turn flips, then either the en-passant
branch (dest equals the current target: clear the target and remove
whatever sits at dest + reverse_step, tolerating an empty square) or the
plain branch (capture whatever occupies dest; set a new en-passant
target at dest + reverse_step exactly when the move spanned two ranks,
else clear it), followed by the shared re-seating tail.  There is no
destination bound check.  The two dest + reverse_step coordinate
constructions are outside any try block, so their IndexError propagates
with the board already mutated. -/
def pawnMove (b : Board) (self : PieceV) (dest : Coord)
    (promo : Option PieceKind) : MoveRes :=
  let b1 := resetHalfmove b
  match colorNext b1.turn with
  | none => Except.error ("ValueError", b1)
  | some t =>
    let b2 := { b1 with turn := t, fullmove := b1.fullmove + (if t = b1.firstPlayer then 1 else 0) }
    match pawnReverseStep self.color with
    | none => Except.error ("NameError", b2)
    | some rstep =>
      if b2.enPassant = some dest then
        let b3 := { b2 with enPassant := none }
        match coordAdd dest rstep with
        | none => Except.error ("IndexError", b3)
        | some capLoc =>
          match b3.pieceMap capLoc with
          | some cap => finishMove (mapDel b3 capLoc) self dest promo (some cap)
          | none => finishMove b3 self dest promo none
      else
        let captured := b2.pieceMap dest
        if (self.pos.rank - dest.rank).natAbs = 2 then
          match coordAdd dest rstep with
          | none => Except.error ("IndexError", b2)
          | some ep => finishMove { b2 with enPassant := some ep } self dest promo captured
        else
          finishMove { b2 with enPassant := none } self dest promo captured

/-- The board component of a successful move result. -/
def resBoard : MoveRes → Option Board
  | Except.ok (b, _) => some b
  | Except.error _ => none

/-- The captured-piece component of a successful move result. -/
def resCap : MoveRes → Option (Option PieceV)
  | Except.ok (_, cap) => some cap
  | Except.error _ => none

/-- The pawn_ranks validation loop of Board.__init__
(src/lib/board.py lines 282-288): reject a non-player key; otherwise
raise ValueError when 0 <= rank < ranks holds, that is, exactly when the
supplied value lies within the board. -/
def pawnRanksValidate (ranks : Nat) (supplied : List (Color × Int)) :
    Except String Unit :=
  supplied.foldl
    (fun acc cv =>
      Except.bind acc (fun _ =>
        if cv.1 ≠ Color.white ∧ cv.1 ≠ Color.black then
          Except.error "pawn_ranks keys must be either Color.WHITE or Color.BLACK"
        else if 0 ≤ cv.2 ∧ cv.2 < (ranks : Int) then
          Except.error "values of pawn_ranks must be within the board"
        else Except.ok ()))
    (Except.ok ())

/-- The pawn-rank derivation of Board.__init__
(src/lib/board.py lines 370-382), after the validation loop.  The source
matches dict(pawn_ranks) against the mapping pattern case followed by
the one-color and two-color arms; a mapping pattern with no keys matches
every mapping, so the first arm is always taken and the derived ranks
are always the defaults WHITE = 1 and BLACK = ranks - 2. -/
def pawnRanksInit (ranks : Nat) (supplied : List (Color × Int)) :
    Except String (Int × Int) :=
  Except.bind (pawnRanksValidate ranks supplied)
    (fun _ => Except.ok (1, (ranks : Int) - 2))

/-- The per-row file counter of the FEN placement decode
(src/lib/board.py lines 293-321): digits accumulate in a buffer that is
flushed (added to the file counter) before each piece symbol and at the
end of the row; each piece symbol advances the counter by one. -/
def rowWidthAux : List Char → Int → Option Nat → Int
  | [], file, none => file
  | [], file, some bufv => file + (bufv : Int)
  | ch :: rest, file, buf =>
    if ch.isDigit then
      rowWidthAux rest file (some ((buf.getD 0) * 10 + (ch.toNat - 48)))
    else
      match buf with
      | none => rowWidthAux rest (file + 1) none
      | some bufv => rowWidthAux rest (file + (bufv : Int) + 1) none

/-- The number of files encoded by one placement row. -/
def rowWidth (row : List Char) : Int :=
  rowWidthAux row 0 none

/-- The num_files computation of Board.__init__
(src/lib/board.py lines 295-326): every row must decode to the same
width as the first, else ValueError. -/
def numFilesOf (rows : List (List Char)) : Except String (Option Int) :=
  rows.foldl
    (fun acc row =>
      Except.bind acc (fun nf =>
        let w := rowWidth row
        match nf with
        | none => Except.ok (some w)
        | some n =>
          if w = n then Except.ok (some n)
          else Except.error "board cannot have non-square shape"))
    (Except.ok none)

/-- The dimension handling of Board.__init__ for a FEN placement field
already split on the slash (src/lib/board.py lines 280-329): the rank
rows are reversed, the rank count is checked with ranks > 26, the file
count is computed with the equal-width check, and then checked with
num_files > 25 - a strict comparison against 25, so a placement of
exactly 26 files is rejected with the more-than-26 message.  An empty
placement would compare None with 25 in the source (a TypeError). -/
def fenDims (placement : List (List Char)) : Except String (Nat × Int) :=
  let rankData := placement.reverse
  let ranks := rankData.length
  if ranks > 26 then Except.error "board cannot have more than 26 ranks"
  else
    Except.bind (numFilesOf rankData) (fun nf =>
      match nf with
      | none => Except.error "TypeError"
      | some n =>
        if n > 25 then Except.error "board cannot have more than 26 files"
        else Except.ok (ranks, n))

/-- The white home-rank piece layout of the standard chess FEN. -/
def backRank (f : Int) : Option PieceKind :=
  if f = 0 then some PieceKind.rook
  else if f = 1 then some PieceKind.knight
  else if f = 2 then some PieceKind.bishop
  else if f = 3 then some PieceKind.queen
  else if f = 4 then some PieceKind.king
  else if f = 5 then some PieceKind.bishop
  else if f = 6 then some PieceKind.knight
  else if f = 7 then some PieceKind.rook
  else none

/-- The piece map decoded from the standard chess starting FEN
(CHESS_FEN in src/lib/board.py). -/
def standardPieceAt (c : Coord) : Option PieceV :=
  if c.rank = 0 then (backRank c.file).map (fun k => (⟨k, Color.white, c⟩ : PieceV))
  else if c.rank = 1 ∧ 0 ≤ c.file ∧ c.file < 8 then some ⟨PieceKind.pawn, Color.white, c⟩
  else if c.rank = 6 ∧ 0 ≤ c.file ∧ c.file < 8 then some ⟨PieceKind.pawn, Color.black, c⟩
  else if c.rank = 7 then (backRank c.file).map (fun k => (⟨k, Color.black, c⟩ : PieceV))
  else none

/-- The standard starting board before the constructor seeds the archive
list. -/
def standardBoardCore : Board :=
  { files := 8, ranks := 8, pieceMap := standardPieceAt, turn := Color.white,
    firstPlayer := Color.white, castling := 15, enPassant := none, halfmove := 0,
    fullmove := 1, pawnRankW := 1, pawnRankB := 6, archiveMode := ArchiveMode.mpart,
    archives := [] }

/-- The standard starting board, archive list seeded as by the
constructor. -/
def standardBoard : Board :=
  { standardBoardCore with archives := [mkArchive standardBoardCore] }

/-- A board with a White pawn on e4 and a Black pawn on d4. -/
def epMap (c : Coord) : Option PieceV :=
  if c = ⟨4, 3⟩ then some ⟨PieceKind.pawn, Color.white, ⟨4, 3⟩⟩
  else if c = ⟨3, 3⟩ then some ⟨PieceKind.pawn, Color.black, ⟨3, 3⟩⟩
  else none

/-- An 8 by 8 board, Black to move, en-passant target e3, with a White
pawn on e4 and a Black pawn on d4 (the position of the C2 scenario,
reachable from the FEN with en-passant field e3). -/
def epBoard : Board :=
  { files := 8, ranks := 8, pieceMap := epMap, turn := Color.black,
    firstPlayer := Color.white, castling := 0, enPassant := some ⟨4, 2⟩,
    halfmove := 0, fullmove := 2, pawnRankW := 1, pawnRankB := 6,
    archiveMode := ArchiveMode.mpart, archives := [] }

/-- The same position with an additional White knight on e2, the square
one step behind the en-passant target from the point of view of the
White pawn. -/
def epMap2 (c : Coord) : Option PieceV :=
  if c = ⟨4, 1⟩ then some ⟨PieceKind.knight, Color.white, ⟨4, 1⟩⟩ else epMap c

/-- The C2 scenario with the e2 square occupied by a White knight. -/
def epBoard2 : Board :=
  { epBoard with pieceMap := epMap2 }

/-- A lone White rook on a1. -/
def rookMap (c : Coord) : Option PieceV :=
  if c = ⟨0, 0⟩ then some ⟨PieceKind.rook, Color.white, ⟨0, 0⟩⟩ else none

/-- An 8 by 8 board holding only a White rook on a1, White to move. -/
def rookBoard : Board :=
  { files := 8, ranks := 8, pieceMap := rookMap, turn := Color.white,
    firstPlayer := Color.white, castling := 0, enPassant := none, halfmove := 0,
    fullmove := 1, pawnRankW := 1, pawnRankB := 6,
    archiveMode := ArchiveMode.mpart, archives := [] }

/-- A lone White pawn on a2. -/
def lonePawnMap (c : Coord) : Option PieceV :=
  if c = ⟨0, 1⟩ then some ⟨PieceKind.pawn, Color.white, ⟨0, 1⟩⟩ else none

/-- An 8 by 8 board holding only a White pawn on a2, White to move. -/
def lonePawnBoard : Board :=
  { rookBoard with pieceMap := lonePawnMap }

/-- A White king on a1 and Black rooks on a8 and h1, every other square
empty: the C4 scenario of a lone king attacked by two rooks along its
file and rank. -/
def kingRooksMap (c : Coord) : Option PieceV :=
  if c = ⟨0, 0⟩ then some ⟨PieceKind.king, Color.white, ⟨0, 0⟩⟩
  else if c = ⟨0, 7⟩ then some ⟨PieceKind.rook, Color.black, ⟨0, 7⟩⟩
  else if c = ⟨7, 0⟩ then some ⟨PieceKind.rook, Color.black, ⟨7, 0⟩⟩
  else none

/-- The C4 board. -/
def kingRooksBoard : Board :=
  { rookBoard with pieceMap := kingRooksMap }

/-- An empty piece map. -/
def emptyMap : Coord → Option PieceV := fun _ => none

/-- A 1 by 1 empty board constructed with archive mode NONE: the
constructor leaves the archive list empty. -/
def noneModeBoard : Board :=
  { files := 1, ranks := 1, pieceMap := emptyMap, turn := Color.white,
    firstPlayer := Color.white, castling := 0, enPassant := none, halfmove := 0,
    fullmove := 1, pawnRankW := 1, pawnRankB := -1,
    archiveMode := ArchiveMode.mnone, archives := [] }

/-- An 8 by 8 board with a White rook on a1 and a Black pawn on f1,
used to exercise the ride characterization along the first rank. -/
def openMap (c : Coord) : Option PieceV :=
  if c = ⟨0, 0⟩ then some ⟨PieceKind.rook, Color.white, ⟨0, 0⟩⟩
  else if c = ⟨5, 0⟩ then some ⟨PieceKind.pawn, Color.black, ⟨5, 0⟩⟩
  else none

/-- The ride witness board. -/
def openBoard : Board :=
  { rookBoard with pieceMap := openMap }

/-- C1: evaluating the embedded Pawn.move for the White pawn on e2
moving to e4 from the standard starting position.  The halfmove clock is
0 and the turn is BLACK as the claim states, but the en-passant target
is set to e5 (file 4, rank 4), the square one step beyond the
destination, not e3 (file 4, rank 2): the reverse_step variable of the
source holds the forward step of the mover. -/
theorem pawn_double_step_en_passant_eval :
    (resBoard (pawnMove standardBoard ⟨PieceKind.pawn, Color.white, ⟨4, 1⟩⟩ ⟨4, 3⟩ none)).map Board.enPassant = some (some ⟨4, 4⟩) ∧
    (resBoard (pawnMove standardBoard ⟨PieceKind.pawn, Color.white, ⟨4, 1⟩⟩ ⟨4, 3⟩ none)).map Board.halfmove = some 0 ∧
    (resBoard (pawnMove standardBoard ⟨PieceKind.pawn, Color.white, ⟨4, 1⟩⟩ ⟨4, 3⟩ none)).map Board.turn = some Color.black ∧
    (resBoard (pawnMove standardBoard ⟨PieceKind.pawn, Color.white, ⟨4, 1⟩⟩ ⟨4, 3⟩ none)).map Board.enPassant ≠ some (some ⟨4, 2⟩) := by
  refine ⟨rfl, rfl, rfl, by decide⟩

/-- C2: evaluating the embedded Pawn.move for the Black pawn on d4
capturing en passant onto e3 while the en-passant target is e3.  The
call clears the target, but the square it tries to capture from is
e2 = dest + (0, -1), one step beyond the destination for the mover, not
e4: with e2 empty the call returns no capture and the White pawn stays
on e4; with a White knight on e2 the knight is the piece removed and
returned. -/
theorem en_passant_capture_eval :
    resCap (pawnMove epBoard ⟨PieceKind.pawn, Color.black, ⟨3, 3⟩⟩ ⟨4, 2⟩ none) = some none ∧
    (resBoard (pawnMove epBoard ⟨PieceKind.pawn, Color.black, ⟨3, 3⟩⟩ ⟨4, 2⟩ none)).map (fun b => b.pieceMap ⟨4, 3⟩) = some (some ⟨PieceKind.pawn, Color.white, ⟨4, 3⟩⟩) ∧
    (resBoard (pawnMove epBoard ⟨PieceKind.pawn, Color.black, ⟨3, 3⟩⟩ ⟨4, 2⟩ none)).map Board.enPassant = some none ∧
    resCap (pawnMove epBoard2 ⟨PieceKind.pawn, Color.black, ⟨3, 3⟩⟩ ⟨4, 2⟩ none) = some (some ⟨PieceKind.knight, Color.white, ⟨4, 1⟩⟩) ∧
    (resBoard (pawnMove epBoard2 ⟨PieceKind.pawn, Color.black, ⟨3, 3⟩⟩ ⟨4, 2⟩ none)).map (fun b => b.pieceMap ⟨4, 1⟩) = some none ∧
    (resBoard (pawnMove epBoard2 ⟨PieceKind.pawn, Color.black, ⟨3, 3⟩⟩ ⟨4, 2⟩ none)).map (fun b => b.pieceMap ⟨4, 3⟩) = some (some ⟨PieceKind.pawn, Color.white, ⟨4, 3⟩⟩) := by
  refine ⟨rfl, rfl, rfl, rfl, rfl, rfl⟩

/-- C3: evaluating the embedded move calls at out-of-bounds
destinations.  On the 8 by 8 rook board the square (8, 0) lies outside
the board, yet the base Piece.move accepts it (its check compares with
strict inequalities) and relocates the rook there; Pawn.move performs no
destination check at all and likewise moves a pawn to (8, 2). -/
theorem move_accepts_boundary_dest_eval :
    ¬ inBoard rookBoard ⟨8, 0⟩ ∧
    (resBoard (pieceMove rookBoard ⟨PieceKind.rook, Color.white, ⟨0, 0⟩⟩ ⟨8, 0⟩ none)).isSome = true ∧
    (resBoard (pieceMove rookBoard ⟨PieceKind.rook, Color.white, ⟨0, 0⟩⟩ ⟨8, 0⟩ none)).map (fun b => b.pieceMap ⟨8, 0⟩) = some (some ⟨PieceKind.rook, Color.white, ⟨8, 0⟩⟩) ∧
    ¬ inBoard lonePawnBoard ⟨8, 2⟩ ∧
    (resBoard (pawnMove lonePawnBoard ⟨PieceKind.pawn, Color.white, ⟨0, 1⟩⟩ ⟨8, 2⟩ none)).isSome = true ∧
    (resBoard (pawnMove lonePawnBoard ⟨PieceKind.pawn, Color.white, ⟨0, 1⟩⟩ ⟨8, 2⟩ none)).map (fun b => b.pieceMap ⟨8, 2⟩) = some (some ⟨PieceKind.pawn, Color.white, ⟨8, 2⟩⟩) := by
  refine ⟨by decide, rfl, rfl, by decide, rfl, rfl⟩

/-- C4: evaluating the embedded attacked_by on the lone-king board with
two attacking rooks.  The scan indexes every square of the grid without
catching the lookup error, so the first empty square makes the whole
call fail instead of returning the two rooks. -/
theorem attacked_by_eval :
    attackedBy kingRooksBoard ⟨PieceKind.king, Color.white, ⟨0, 0⟩⟩ = Except.error "KeyError" := by
  rfl

/-- C5: evaluating the embedded increment_halfmove on a board built with
archive mode NONE.  The archive list starts empty, but one increment
appends a snapshot, because the source guard compares the archive list
itself (not the archive mode) with the NONE enum member and is always
true. -/
theorem none_mode_archive_eval :
    noneModeBoard.archiveMode = ArchiveMode.mnone ∧
    noneModeBoard.archives.length = 0 ∧
    (incrementHalfmove noneModeBoard).archives.length = 1 := by
  refine ⟨rfl, rfl, rfl⟩

/-- C6: evaluating the embedded pawn_ranks handling of the board
constructor on an 8-rank board.  Supplying WHITE with the valid rank 1
raises the within-the-board ValueError (the validation test is
inverted), while supplying the out-of-board rank 9 passes validation
and still yields the defaults (1, 6) because the empty mapping pattern
of the derivation match accepts every mapping, so the mirror rule never
runs. -/
theorem pawn_ranks_eval :
    pawnRanksInit 8 [(Color.white, 1)] = Except.error "values of pawn_ranks must be within the board" ∧
    pawnRanksInit 8 [(Color.white, 9)] = Except.ok (1, 6) := by
  refine ⟨rfl, rfl⟩

/-- C7: evaluating the embedded FEN dimension handling.  A placement of
one rank of exactly 26 files is rejected with the more-than-26-files
message (the source compares num_files > 25), a 25-file placement is
accepted, and a 27-rank placement is rejected on the rank axis as the
claim states. -/
theorem fen_dims_eval :
    fenDims [['2', '6']] = Except.error "board cannot have more than 26 files" ∧
    fenDims [['2', '5']] = Except.ok (1, 25) ∧
    fenDims (List.replicate 27 ['1']) = Except.error "board cannot have more than 26 ranks" := by
  refine ⟨rfl, rfl, rfl⟩

/-- The square reached from c after k applications of the step. -/
def stepk (c : Coord) (s : Int × Int) (k : Nat) : Coord :=
  ⟨c.file + (k : Int) * s.1, c.rank + (k : Int) * s.2⟩

/-- The condition under which the ride walk continues onto a square: the
Coordinate constructor accepted it and it passed the file and rank bound
checks of the loop. -/
def goOn (b : Board) (c : Coord) : Prop :=
  coordOK c ∧ c.file < (b.files : Int) ∧ c.rank < (b.ranks : Int)

instance (b : Board) (c : Coord) : Decidable (goOn b c) := by
  unfold goOn
  infer_instance

lemma stepk_one (c : Coord) (s : Int × Int) : stepk c s 1 = rawAdd c s := by
  apply Coord.ext <;> simp [stepk, rawAdd]

lemma stepk_shift (c : Coord) (s : Int × Int) (k : Nat) :
    stepk (rawAdd c s) s k = stepk c s (k + 1) := by
  apply Coord.ext <;> simp [stepk, rawAdd] <;> ring

lemma coordAdd_some {c c2 : Coord} {s : Int × Int} (h : coordAdd c s = some c2) :
    c2 = rawAdd c s ∧ coordOK (rawAdd c s) := by
  by_cases hok : coordOK (rawAdd c s)
  · have h' := h
    simp only [coordAdd, if_pos hok, Option.some.injEq] at h'
    exact ⟨h'.symm, hok⟩
  · simp [coordAdd, hok] at h

lemma coordAdd_none {c : Coord} {s : Int × Int} (h : coordAdd c s = none) :
    ¬ coordOK (rawAdd c s) := by
  intro hok
  simp [coordAdd, hok] at h

/-- Membership characterization of the fueled ride loop: a square is
collected exactly when it is the k-th step for some k between 1 and the
fuel, every step up to and including the k-th passes the continue
checks, and no step strictly before the k-th is occupied. -/
lemma rideAux_mem (b : Board) (s : Int × Int) :
    ∀ (n : Nat) (c x : Coord),
      x ∈ rideAux b s n c ↔
        ∃ k : Nat, 1 ≤ k ∧ k ≤ n ∧ x = stepk c s k ∧
          (∀ j : Nat, 1 ≤ j → j ≤ k → goOn b (stepk c s j)) ∧
          (∀ j : Nat, 1 ≤ j → j < k → occupied b (stepk c s j) = false) := by
  intro n
  induction n with
  | zero =>
    intro c x
    simp only [rideAux, List.not_mem_nil, false_iff]
    rintro ⟨k, hk1, hk0, -⟩
    omega
  | succ n ih =>
    intro c x
    cases hadd : coordAdd c s with
    | none =>
      simp only [rideAux, hadd, List.not_mem_nil, false_iff]
      rintro ⟨k, hk1, -, -, hgo, -⟩
      have h1 := hgo 1 le_rfl hk1
      rw [stepk_one] at h1
      exact coordAdd_none hadd h1.1
    | some c2 =>
      obtain ⟨hc2, hok⟩ := coordAdd_some hadd
      subst hc2
      by_cases hout : (b.files : Int) ≤ (rawAdd c s).file ∨ (b.ranks : Int) ≤ (rawAdd c s).rank
      · simp only [rideAux, hadd, if_pos hout, List.not_mem_nil, false_iff]
        rintro ⟨k, hk1, -, -, hgo, -⟩
        have h1 := hgo 1 le_rfl hk1
        rw [stepk_one] at h1
        rcases hout with h | h
        · exact absurd h1.2.1 (not_lt.mpr h)
        · exact absurd h1.2.2 (not_lt.mpr h)
      · have houtlt : (rawAdd c s).file < (b.files : Int) ∧ (rawAdd c s).rank < (b.ranks : Int) := by
          push_neg at hout
          exact hout
        by_cases hocc : occupied b (rawAdd c s) = true
        · simp only [rideAux, hadd, if_neg hout, if_pos hocc,
            List.mem_singleton]
          constructor
          · intro hx
            refine ⟨1, le_rfl, by omega, by rw [stepk_one]; exact hx, ?_, ?_⟩
            · intro j hj1 hj2
              have hj : j = 1 := by omega
              subst hj
              rw [stepk_one]
              exact ⟨hok, houtlt.1, houtlt.2⟩
            · intro j hj1 hj2
              omega
          · rintro ⟨k, hk1, -, hx, -, hoccs⟩
            have hk : k = 1 := by
              by_contra hne
              have := hoccs 1 le_rfl (by omega)
              rw [stepk_one] at this
              rw [this] at hocc
              exact absurd hocc Bool.false_ne_true
            subst hk
            rw [stepk_one] at hx
            exact hx
        · have hoccf : occupied b (rawAdd c s) = false := by
            revert hocc
            cases occupied b (rawAdd c s) <;> simp
          simp only [rideAux, hadd, if_neg hout, if_neg hocc,
            List.mem_cons]
          constructor
          · rintro (hx | hx)
            · refine ⟨1, le_rfl, by omega, by rw [stepk_one]; exact hx, ?_, ?_⟩
              · intro j hj1 hj2
                have hj : j = 1 := by omega
                subst hj
                rw [stepk_one]
                exact ⟨hok, houtlt.1, houtlt.2⟩
              · intro j hj1 hj2
                omega
            · obtain ⟨k, hk1, hkn, hx, hgo, hoccs⟩ := (ih (rawAdd c s) x).mp hx
              refine ⟨k + 1, by omega, by omega, ?_, ?_, ?_⟩
              · rw [← stepk_shift]
                exact hx
              · intro j hj1 hj2
                rcases eq_or_lt_of_le hj1 with h1 | h1
                · rw [← h1, stepk_one]
                  exact ⟨hok, houtlt.1, houtlt.2⟩
                · obtain ⟨j', rfl⟩ : ∃ j', j = j' + 1 := ⟨j - 1, by omega⟩
                  rw [← stepk_shift]
                  exact hgo j' (by omega) (by omega)
              · intro j hj1 hj2
                rcases eq_or_lt_of_le hj1 with h1 | h1
                · rw [← h1, stepk_one]
                  exact hoccf
                · obtain ⟨j', rfl⟩ : ∃ j', j = j' + 1 := ⟨j - 1, by omega⟩
                  rw [← stepk_shift]
                  exact hoccs j' (by omega) (by omega)
          · rintro ⟨k, hk1, hkn, hx, hgo, hoccs⟩
            rcases eq_or_lt_of_le hk1 with h1 | h1
            · left
              rw [← h1, stepk_one] at hx
              exact hx
            · right
              obtain ⟨k', rfl⟩ : ∃ k', k = k' + 1 := ⟨k - 1, by omega⟩
              refine (ih (rawAdd c s) x).mpr ⟨k', by omega, by omega, ?_, ?_, ?_⟩
              · rw [stepk_shift]
                exact hx
              · intro j hj1 hj2
                rw [stepk_shift]
                exact hgo (j + 1) (by omega) (by omega)
              · intro j hj1 hj2
                rw [stepk_shift]
                exact hoccs (j + 1) (by omega) (by omega)

/-- A nonzero step leaves the [0, 26) coordinate window within 25
applications, so the fuel of 26 used by ride covers every walk the
source loop can perform. -/
lemma stepk_le_25 {c : Coord} {s : Int × Int} {k : Nat}
    (hs : s ≠ (0, 0)) (hc : coordOK c) (hk : coordOK (stepk c s k)) : k ≤ 25 := by
  have hsplit : s.1 ≠ 0 ∨ s.2 ≠ 0 := by
    by_contra h
    push_neg at h
    exact hs (Prod.ext h.1 h.2)
  obtain ⟨hc1, hc2, hc3, hc4⟩ := hc
  simp only [stepk, coordOK] at hk
  obtain ⟨hk1, hk2, hk3, hk4⟩ := hk
  have hknn : (0 : Int) ≤ (k : Int) := by positivity
  rcases hsplit with h | h
  · rcases lt_or_gt_of_ne h with hneg | hpos
    · have hs1 : s.1 ≤ -1 := by omega
      have hb : (k : Int) * s.1 ≤ (k : Int) * (-1) :=
        mul_le_mul_of_nonneg_left hs1 hknn
      have hki : (k : Int) ≤ 25 := by linarith
      exact_mod_cast hki
    · have hs1 : 1 ≤ s.1 := by omega
      have hb : (k : Int) * 1 ≤ (k : Int) * s.1 :=
        mul_le_mul_of_nonneg_left hs1 hknn
      have hki : (k : Int) ≤ 25 := by linarith
      exact_mod_cast hki
  · rcases lt_or_gt_of_ne h with hneg | hpos
    · have hs2 : s.2 ≤ -1 := by omega
      have hb : (k : Int) * s.2 ≤ (k : Int) * (-1) :=
        mul_le_mul_of_nonneg_left hs2 hknn
      have hki : (k : Int) ≤ 25 := by linarith
      exact_mod_cast hki
    · have hs2 : 1 ≤ s.2 := by omega
      have hb : (k : Int) * 1 ≤ (k : Int) * s.2 :=
        mul_le_mul_of_nonneg_left hs2 hknn
      have hki : (k : Int) ≤ 25 := by linarith
      exact_mod_cast hki

/-- For boards within the 26 by 26 coordinate window (every board the
constructor accepts), the continue condition of the ride loop is exactly
membership in the board. -/
lemma goOn_iff_inBoard {b : Board} (hf : b.files ≤ 26) (hr : b.ranks ≤ 26) (c : Coord) :
    goOn b c ↔ inBoard b c := by
  unfold goOn inBoard coordOK
  have hf' : (b.files : Int) ≤ 26 := by exact_mod_cast hf
  have hr' : (b.ranks : Int) ≤ 26 := by exact_mod_cast hr
  constructor
  · rintro ⟨⟨h1, h2, h3, h4⟩, h5, h6⟩
    exact ⟨h1, h5, h3, h6⟩
  · rintro ⟨h1, h2, h3, h4⟩
    exact ⟨⟨h1, by omega, h3, by omega⟩, h2, h4⟩

/-- C8: for every piece on a board (position inside the coordinate
window, as the Coordinate class guarantees) and every nonzero step,
ride returns exactly the squares pos + k * step, k = 1, 2, ..., that lie
within board bounds up to and including the first occupied square, with
nothing past the first occupied square; occupancy is tested without
regard to the color of the occupant. -/
theorem ride_characterization (b : Board) (p : PieceV) (s : Int × Int) (x : Coord)
    (hs : s ≠ (0, 0)) (hpos : coordOK p.pos)
    (hf : b.files ≤ 26) (hr : b.ranks ≤ 26) :
    x ∈ ride b p s ↔
      ∃ k : Nat, 1 ≤ k ∧ x = stepk p.pos s k ∧
        (∀ j : Nat, 1 ≤ j → j ≤ k → inBoard b (stepk p.pos s j)) ∧
        (∀ j : Nat, 1 ≤ j → j < k → occupied b (stepk p.pos s j) = false) := by
  rw [ride, rideAux_mem]
  constructor
  · rintro ⟨k, hk1, hk26, hx, hgo, hocc⟩
    exact ⟨k, hk1, hx, fun j hj1 hj2 => (goOn_iff_inBoard hf hr _).mp (hgo j hj1 hj2), hocc⟩
  · rintro ⟨k, hk1, hx, hgo, hocc⟩
    have hgo' : ∀ j, 1 ≤ j → j ≤ k → goOn b (stepk p.pos s j) :=
      fun j hj1 hj2 => (goOn_iff_inBoard hf hr _).mpr (hgo j hj1 hj2)
    have hk25 : k ≤ 25 := stepk_le_25 hs hpos (hgo' k hk1 le_rfl).1
    exact ⟨k, hk1, by omega, hx, hgo', hocc⟩

/-- Witness for C8: the characterization applied to the rook on a1 of
the open board riding right along the first rank, at the square d1. -/
theorem ride_characterization_witness :
    ((1, 0) : Int × Int) ≠ (0, 0) ∧ coordOK (⟨0, 0⟩ : Coord) ∧
      openBoard.files ≤ 26 ∧ openBoard.ranks ≤ 26 ∧
      ((⟨3, 0⟩ : Coord) ∈ ride openBoard ⟨PieceKind.rook, Color.white, ⟨0, 0⟩⟩ (1, 0) ↔
        ∃ k : Nat, 1 ≤ k ∧ (⟨3, 0⟩ : Coord) = stepk ⟨0, 0⟩ (1, 0) k ∧
          (∀ j : Nat, 1 ≤ j → j ≤ k → inBoard openBoard (stepk ⟨0, 0⟩ (1, 0) j)) ∧
          (∀ j : Nat, 1 ≤ j → j < k → occupied openBoard (stepk ⟨0, 0⟩ (1, 0) j) = false)) :=
  ⟨by decide, by decide, by decide, by decide,
    ride_characterization openBoard ⟨PieceKind.rook, Color.white, ⟨0, 0⟩⟩ (1, 0) ⟨3, 0⟩
      (by decide) (by decide) (by decide) (by decide)⟩

/-- leap with the board state threaded through the call: the board each
read observes is returned alongside the squares, mirroring a
statement-by-statement translation of the source in which every
board-touching operation passes the state along. -/
def leapT (b : Board) (p : PieceV) (s : Int × Int) : Board × List Coord :=
  match coordAdd p.pos s with
  | none => (b, [])
  | some c2 =>
    if (b.files : Int) ≤ c2.file ∨ (b.ranks : Int) ≤ c2.rank then (b, []) else (b, [c2])

/-- The ride loop with the board state threaded through every
iteration. -/
def rideAuxT (b : Board) (s : Int × Int) : Nat → Coord → Board × List Coord
  | 0, _ => (b, [])
  | n + 1, c =>
    match coordAdd c s with
    | none => (b, [])
    | some c2 =>
      if (b.files : Int) ≤ c2.file ∨ (b.ranks : Int) ≤ c2.rank then (b, [])
      else if occupied b c2 then (b, [c2])
      else
        let r := rideAuxT b s n c2
        (r.1, c2 :: r.2)

/-- ride with the board state threaded through the call. -/
def rideT (b : Board) (p : PieceV) (s : Int × Int) : Board × List Coord :=
  rideAuxT b s 26 p.pos

/-- sym_leap with the board state threaded through the eight component
calls in source order. -/
def symLeapT (b : Board) (p : PieceV) (s : Int × Int) : Board × List Coord :=
  let r1 := leapT b p (s.1, s.2)
  let r2 := leapT r1.1 p (-s.1, s.2)
  let r3 := leapT r2.1 p (s.1, -s.2)
  let r4 := leapT r3.1 p (-s.1, -s.2)
  let r5 := leapT r4.1 p (s.2, s.1)
  let r6 := leapT r5.1 p (-s.2, s.1)
  let r7 := leapT r6.1 p (s.2, -s.1)
  let r8 := leapT r7.1 p (-s.2, -s.1)
  (r8.1, r1.2 ++ r2.2 ++ r3.2 ++ r4.2 ++ r5.2 ++ r6.2 ++ r7.2 ++ r8.2)

/-- sym_ride with the board state threaded through the eight component
calls in source order. -/
def symRideT (b : Board) (p : PieceV) (s : Int × Int) : Board × List Coord :=
  let r1 := rideT b p (s.1, s.2)
  let r2 := rideT r1.1 p (-s.1, s.2)
  let r3 := rideT r2.1 p (s.1, -s.2)
  let r4 := rideT r3.1 p (-s.1, -s.2)
  let r5 := rideT r4.1 p (s.2, s.1)
  let r6 := rideT r5.1 p (-s.2, s.1)
  let r7 := rideT r6.1 p (s.2, -s.1)
  let r8 := rideT r7.1 p (-s.2, -s.1)
  (r8.1, r1.2 ++ r2.2 ++ r3.2 ++ r4.2 ++ r5.2 ++ r6.2 ++ r7.2 ++ r8.2)

lemma leapT_eq (b : Board) (p : PieceV) (s : Int × Int) :
    leapT b p s = (b, leap b p s) := by
  unfold leapT leap
  cases coordAdd p.pos s with
  | none => rfl
  | some c2 =>
    by_cases h : (b.files : Int) ≤ c2.file ∨ (b.ranks : Int) ≤ c2.rank
    · simp only [if_pos h]
    · simp only [if_neg h]

lemma rideAuxT_eq (b : Board) (s : Int × Int) :
    ∀ (n : Nat) (c : Coord), rideAuxT b s n c = (b, rideAux b s n c) := by
  intro n
  induction n with
  | zero => intro c; rfl
  | succ n ih =>
    intro c
    unfold rideAuxT rideAux
    cases coordAdd c s with
    | none => rfl
    | some c2 =>
      by_cases h1 : (b.files : Int) ≤ c2.file ∨ (b.ranks : Int) ≤ c2.rank
      · simp only [if_pos h1]
      · simp only [if_neg h1]
        by_cases h2 : occupied b c2 = true
        · simp only [if_pos h2]
        · simp only [if_neg h2, ih c2]

lemma rideT_eq (b : Board) (p : PieceV) (s : Int × Int) :
    rideT b p s = (b, ride b p s) :=
  rideAuxT_eq b s 26 p.pos

lemma symLeapT_eq (b : Board) (p : PieceV) (s : Int × Int) :
    symLeapT b p s = (b, symLeap b p s) := by
  unfold symLeapT symLeap
  simp only [leapT_eq]

lemma symRideT_eq (b : Board) (p : PieceV) (s : Int × Int) :
    symRideT b p s = (b, symRide b p s) := by
  unfold symRideT symRide
  simp only [rideT_eq]

/-- Pawn.moves with the board state threaded through the forward block,
the left diagonal and the right diagonal in source order. -/
def pawnMovesT (b : Board) (p : PieceV) : Board × List Coord :=
  match pawnBaseStep p.color with
  | none => (b, [])
  | some bs =>
    match coordAdd p.pos bs with
    | none => (b, [])
    | some t1 =>
      if (b.ranks : Int) ≤ t1.rank then (b, [])
      else
        let fwdR : Board × List Coord :=
          if occupied b t1 then (b, [])
          else if p.pos.rank = pawnDouble b p.color then
            match coordAdd t1 bs with
            | none => (b, [t1])
            | some t2 =>
              if (b.ranks : Int) ≤ t2.rank then (b, [t1])
              else if occupied b t2 then (b, [t1]) else (b, [t1, t2])
          else (b, [t1])
        let ldR : Board × List Coord :=
          match coordAdd t1 (-1, 0) with
          | none => (fwdR.1, [])
          | some t3 =>
            if fwdR.1.enPassant = some t3 ∨ occupied fwdR.1 t3 then (fwdR.1, [t3])
            else (fwdR.1, [])
        let rdR : Board × List Coord :=
          match coordAdd t1 (1, 0) with
          | none => (ldR.1, [])
          | some t4 =>
            if (ldR.1.files : Int) ≤ t4.file then (ldR.1, [])
            else if ldR.1.enPassant = some t4 ∨ occupied ldR.1 t4 then (ldR.1, [t4])
            else (ldR.1, [])
        (rdR.1, fwdR.2 ++ ldR.2 ++ rdR.2)

lemma pawnMovesT_eq (b : Board) (p : PieceV) : pawnMovesT b p = (b, pawnMoves b p) := by
  cases hbs : pawnBaseStep p.color with
  | none => simp only [pawnMovesT, pawnMoves, hbs]
  | some bs =>
    cases hadd : coordAdd p.pos bs with
    | none => simp only [pawnMovesT, pawnMoves, hbs, hadd]
    | some t1 =>
      simp only [pawnMovesT, pawnMoves, hbs, hadd]
      by_cases h1 : (b.ranks : Int) ≤ t1.rank
      · simp only [if_pos h1]
      · simp only [if_neg h1]
        by_cases h2 : occupied b t1 = true <;>
          by_cases h3 : p.pos.rank = pawnDouble b p.color <;>
            cases hA : coordAdd t1 bs <;>
              cases hB : coordAdd t1 (-1, 0) <;>
                cases hC : coordAdd t1 (1, 0) <;>
                  simp [h2, h3, hA, hB, hC] <;>
                    split_ifs <;> simp_all

/-- moves with the board state threaded through every primitive call in
source order. -/
def movesT (b : Board) (p : PieceV) : Board × List Coord :=
  match p.kind with
  | PieceKind.piece => (b, [])
  | PieceKind.amazon =>
    let r1 := symRideT b p (1, 0)
    let r2 := symRideT r1.1 p (1, 1)
    let r3 := symLeapT r2.1 p (2, 1)
    (r3.1, r1.2 ++ r2.2 ++ r3.2)
  | PieceKind.bishop => symRideT b p (1, 1)
  | PieceKind.empress =>
    let r1 := symRideT b p (1, 0)
    let r2 := symLeapT r1.1 p (2, 1)
    (r2.1, r1.2 ++ r2.2)
  | PieceKind.king =>
    let r1 := symLeapT b p (1, 0)
    let r2 := symLeapT r1.1 p (1, 1)
    (r2.1, r1.2 ++ r2.2)
  | PieceKind.knight => symLeapT b p (2, 1)
  | PieceKind.nightrider => symRideT b p (2, 1)
  | PieceKind.pawn => pawnMovesT b p
  | PieceKind.princess =>
    let r1 := symRideT b p (1, 1)
    let r2 := symLeapT r1.1 p (2, 1)
    (r2.1, r1.2 ++ r2.2)
  | PieceKind.queen =>
    let r1 := symRideT b p (1, 0)
    let r2 := symRideT r1.1 p (1, 1)
    (r2.1, r1.2 ++ r2.2)
  | PieceKind.rook => symRideT b p (1, 0)

lemma movesT_eq (b : Board) (p : PieceV) : movesT b p = (b, movesOf b p) := by
  unfold movesT movesOf
  cases p.kind <;> simp [symRideT_eq, symLeapT_eq, pawnMovesT_eq]

/-- C10: moves is a pure query.  Embedding every concrete moves method
with the board state threaded through each primitive call, the board
that comes out is the board that went in - the piece map, turn, castling
rights, en-passant target, clocks, pawn ranks and archive list are all
unchanged - and the squares computed agree with the direct reading of
the source. -/
theorem moves_pure_query (b : Board) (p : PieceV) :
    (movesT b p).1 = b ∧ (movesT b p).2 = movesOf b p := by
  rw [movesT_eq]
  exact ⟨rfl, rfl⟩

lemma leap_mem_inBoard {b : Board} {p : PieceV} {s : Int × Int} {x : Coord}
    (h : x ∈ leap b p s) : inBoard b x := by
  cases hadd : coordAdd p.pos s with
  | none => simp only [leap, hadd, List.not_mem_nil] at h
  | some c2 =>
    obtain ⟨hc2, hok⟩ := coordAdd_some hadd
    rw [← hc2] at hok
    simp only [leap, hadd] at h
    by_cases hout : (b.files : Int) ≤ c2.file ∨ (b.ranks : Int) ≤ c2.rank
    · rw [if_pos hout] at h
      simp at h
    · rw [if_neg hout] at h
      push_neg at hout
      simp only [List.mem_singleton] at h
      subst h
      exact ⟨hok.1, hout.1, hok.2.2.1, hout.2⟩

lemma rideAux_mem_inBoard {b : Board} {s : Int × Int} :
    ∀ (n : Nat) (c x : Coord), x ∈ rideAux b s n c → inBoard b x := by
  intro n
  induction n with
  | zero =>
    intro c x h
    simp [rideAux] at h
  | succ n ih =>
    intro c x h
    cases hadd : coordAdd c s with
    | none => simp only [rideAux, hadd, List.not_mem_nil] at h
    | some c2 =>
      obtain ⟨hc2, hok⟩ := coordAdd_some hadd
      rw [← hc2] at hok
      simp only [rideAux, hadd] at h
      by_cases hout : (b.files : Int) ≤ c2.file ∨ (b.ranks : Int) ≤ c2.rank
      · rw [if_pos hout] at h
        simp at h
      · rw [if_neg hout] at h
        have houtlt := hout
        push_neg at houtlt
        by_cases hocc : occupied b c2 = true
        · rw [if_pos hocc] at h
          simp only [List.mem_singleton] at h
          subst h
          exact ⟨hok.1, houtlt.1, hok.2.2.1, houtlt.2⟩
        · rw [if_neg hocc] at h
          simp only [List.mem_cons] at h
          rcases h with h | h
          · subst h
            exact ⟨hok.1, houtlt.1, hok.2.2.1, houtlt.2⟩
          · exact ih _ _ h

lemma ride_mem_inBoard {b : Board} {p : PieceV} {s : Int × Int} {x : Coord}
    (h : x ∈ ride b p s) : inBoard b x :=
  rideAux_mem_inBoard 26 p.pos x h

lemma symLeap_mem_inBoard {b : Board} {p : PieceV} {s : Int × Int} {x : Coord}
    (h : x ∈ symLeap b p s) : inBoard b x := by
  simp only [symLeap, List.mem_append] at h
  rcases h with ((((((h | h) | h) | h) | h) | h) | h) | h <;> exact leap_mem_inBoard h

lemma symRide_mem_inBoard {b : Board} {p : PieceV} {s : Int × Int} {x : Coord}
    (h : x ∈ symRide b p s) : inBoard b x := by
  simp only [symRide, List.mem_append] at h
  rcases h with ((((((h | h) | h) | h) | h) | h) | h) | h <;> exact ride_mem_inBoard h

lemma pawnMoves_mem_inBoard {b : Board} {p : PieceV} {x : Coord}
    (hpos : inBoard b p.pos) (h : x ∈ pawnMoves b p) : inBoard b x := by
  obtain ⟨hp1, hp2, hp3, hp4⟩ := hpos
  unfold pawnMoves at h
  cases hbs : pawnBaseStep p.color with
  | none =>
    simp only [hbs] at h
    simp at h
  | some bs =>
    simp only [hbs] at h
    have hbs1 : bs.1 = 0 := by
      cases hcol : p.color <;> rw [hcol] at hbs <;> simp [pawnBaseStep] at hbs <;>
        subst hbs <;> rfl
    cases hadd : coordAdd p.pos bs with
    | none =>
      simp only [hadd] at h
      simp at h
    | some t1 =>
      obtain ⟨ht1, hok1⟩ := coordAdd_some hadd
      rw [← ht1] at hok1
      obtain ⟨h1a, h1b, h1c, h1d⟩ := hok1
      have ht1file : t1.file = p.pos.file := by
        rw [ht1]
        simp [rawAdd, hbs1]
      simp only [hadd] at h
      by_cases hr1 : (b.ranks : Int) ≤ t1.rank
      · rw [if_pos hr1] at h
        simp at h
      · rw [if_neg hr1] at h
        push_neg at hr1
        simp only [List.mem_append] at h
        rcases h with (h | h) | h
        · by_cases hofwd : occupied b t1 = true
          · rw [if_pos hofwd] at h
            simp at h
          · rw [if_neg hofwd] at h
            simp only [List.mem_append, List.mem_singleton] at h
            rcases h with h | h
            · subst h
              refine ⟨?_, ?_, ?_, ?_⟩ <;> omega
            · by_cases hdr : p.pos.rank = pawnDouble b p.color
              · rw [if_pos hdr] at h
                cases hadd2 : coordAdd t1 bs with
                | none =>
                  simp only [hadd2] at h
                  simp at h
                | some t2 =>
                  obtain ⟨ht2, hok2⟩ := coordAdd_some hadd2
                  rw [← ht2] at hok2
                  obtain ⟨h2a, h2b, h2c, h2d⟩ := hok2
                  have ht2file : t2.file = p.pos.file := by
                    rw [ht2]
                    simp [rawAdd, hbs1, ht1file]
                  simp only [hadd2] at h
                  by_cases hr2 : (b.ranks : Int) ≤ t2.rank
                  · rw [if_pos hr2] at h
                    simp at h
                  · rw [if_neg hr2] at h
                    push_neg at hr2
                    by_cases ho2 : occupied b t2 = true
                    · rw [if_pos ho2] at h
                      simp at h
                    · rw [if_neg ho2] at h
                      simp only [List.mem_singleton] at h
                      subst h
                      refine ⟨?_, ?_, ?_, ?_⟩ <;> omega
              · rw [if_neg hdr] at h
                simp at h
        · cases hadd3 : coordAdd t1 (-1, 0) with
          | none =>
            simp only [hadd3] at h
            simp at h
          | some t3 =>
            obtain ⟨ht3, hok3⟩ := coordAdd_some hadd3
            rw [← ht3] at hok3
            obtain ⟨h3a, h3b, h3c, h3d⟩ := hok3
            have ht3file : t3.file = p.pos.file - 1 := by
              rw [ht3]
              simp [rawAdd, ht1file]
              omega
            have ht3rank : t3.rank = t1.rank := by
              rw [ht3]
              simp [rawAdd]
            simp only [hadd3] at h
            by_cases hcond : b.enPassant = some t3 ∨ occupied b t3 = true
            · rw [if_pos hcond] at h
              simp only [List.mem_singleton] at h
              subst h
              refine ⟨?_, ?_, ?_, ?_⟩ <;> omega
            · rw [if_neg hcond] at h
              simp at h
        · cases hadd4 : coordAdd t1 (1, 0) with
          | none =>
            simp only [hadd4] at h
            simp at h
          | some t4 =>
            obtain ⟨ht4, hok4⟩ := coordAdd_some hadd4
            rw [← ht4] at hok4
            obtain ⟨h4a, h4b, h4c, h4d⟩ := hok4
            have ht4rank : t4.rank = t1.rank := by
              rw [ht4]
              simp [rawAdd]
            simp only [hadd4] at h
            by_cases hf4 : (b.files : Int) ≤ t4.file
            · rw [if_pos hf4] at h
              simp at h
            · rw [if_neg hf4] at h
              push_neg at hf4
              by_cases hcond : b.enPassant = some t4 ∨ occupied b t4 = true
              · rw [if_pos hcond] at h
                simp only [List.mem_singleton] at h
                subst h
                refine ⟨?_, ?_, ?_, ?_⟩ <;> omega
              · rw [if_neg hcond] at h
                simp at h

/-- C9: for every piece of every concrete class placed on a board (its
position inside the board, per the stored-piece invariant of the board),
every square returned by moves lies within
[0, files) x [0, ranks); off-board candidates are dropped from the
result rather than raising an error. -/
theorem moves_within_board (b : Board) (p : PieceV) (hpos : inBoard b p.pos) :
    ∀ x ∈ movesOf b p, inBoard b x := by
  intro x hx
  cases hk : p.kind <;> simp only [movesOf, hk, List.mem_append] at hx
  case piece => simp at hx
  case amazon =>
    rcases hx with (hx | hx) | hx
    · exact symRide_mem_inBoard hx
    · exact symRide_mem_inBoard hx
    · exact symLeap_mem_inBoard hx
  case bishop => exact symRide_mem_inBoard hx
  case empress =>
    rcases hx with hx | hx
    · exact symRide_mem_inBoard hx
    · exact symLeap_mem_inBoard hx
  case king =>
    rcases hx with hx | hx
    · exact symLeap_mem_inBoard hx
    · exact symLeap_mem_inBoard hx
  case knight => exact symLeap_mem_inBoard hx
  case nightrider => exact symRide_mem_inBoard hx
  case pawn => exact pawnMoves_mem_inBoard hpos hx
  case princess =>
    rcases hx with hx | hx
    · exact symRide_mem_inBoard hx
    · exact symLeap_mem_inBoard hx
  case queen =>
    rcases hx with hx | hx
    · exact symRide_mem_inBoard hx
    · exact symRide_mem_inBoard hx
  case rook => exact symRide_mem_inBoard hx

/-- Witness for C9: the White knight on b1 of the standard starting
board. -/
theorem moves_within_board_witness :
    inBoard standardBoard (⟨1, 0⟩ : Coord) ∧
      ∀ x ∈ movesOf standardBoard ⟨PieceKind.knight, Color.white, ⟨1, 0⟩⟩,
        inBoard standardBoard x :=
  ⟨by decide,
    moves_within_board standardBoard ⟨PieceKind.knight, Color.white, ⟨1, 0⟩⟩ (by decide)⟩

end PyChess
